import Mathlib

/-!
Verification of the hash-based aggregation and equi-join core of Impala
(`be/src/exec/hash-table.cc`, `be/src/exec/partitioned-aggregation-node.cc`,
`be/src/exec/partitioned-hash-join-node.cc`) against its natural-language
specification.  Machine integers are modelled as `Nat`/`Int` with explicit
reduction mod 2^32 where 32-bit wrap-around matters; fallible operations
return `Except`/`Option`; the memory subsystem (block manager, trackers) is
modelled by explicit state or boolean oracles.
-/

namespace Impala

/-- 2^32, the modulus of unsigned 32-bit arithmetic. -/
def U32 : Nat := 4294967296

/-! ### Per-level hash seeds (`HashTableCtx::HashTableCtx`, hash-table.cc:104-113)

`seeds_[0] = initial_seed; seeds_[i] = seeds_[i-1] * SEED_PRIMES[i]` with
unsigned 32-bit wrap-around multiplication. -/

/-- The multiplier table `SEED_PRIMES` from hash-table.cc:44-63. -/
def SEED_PRIMES : List Nat :=
  [1, 1431655781, 1183186591, 622729787, 472882027, 338294347, 275604541,
   41161739, 29999999, 27475109, 611603, 16313357, 11380003, 21261403,
   33393119, 101, 71043403]

/-- `SEED_PRIMES[k]` (0 for out-of-range `k`, which never occurs for levels
up to `MAX_PARTITION_DEPTH = 16`). -/
def seedPrime (k : Nat) : Nat := SEED_PRIMES.getD k 0

/-- `seeds_[k]` as computed by the `HashTableCtx` constructor: the initial
seed (reduced to its unsigned 32-bit value) repeatedly multiplied by
`SEED_PRIMES`, wrapping mod 2^32. -/
def seedAt (initialSeed : Nat) : Nat → Nat
  | 0 => initialSeed % U32
  | k + 1 => seedAt initialSeed k * seedPrime (k + 1) % U32

/-- The cumulative product `SEED_PRIMES[1] * ... * SEED_PRIMES[k] mod 2^32`. -/
def primeProd : Nat → Nat
  | 0 => 1
  | k + 1 => primeProd k * seedPrime (k + 1) % U32

theorem seedAt_eq_mul_primeProd (s k : Nat) :
    seedAt s k = s % U32 * primeProd k % U32 := by
  induction k with
  | zero => simp [seedAt, primeProd]
  | succ k ih =>
      show seedAt s k * seedPrime (k + 1) % U32 =
        s % U32 * (primeProd k * seedPrime (k + 1) % U32) % U32
      rw [ih, Nat.mod_mul_mod, Nat.mul_mod_mod, Nat.mul_assoc]

theorem primeProd_lt_U32 (k : Nat) : primeProd k < U32 := by
  cases k with
  | zero => decide
  | succ k => exact Nat.mod_lt _ (by decide)

theorem primeProd_odd_of_le (k : Nat) (hk : k ≤ 16) : primeProd k % 2 = 1 := by
  revert k
  decide

theorem primeProd_pairwise_distinct :
    ∀ i < 17, ∀ j < 17, i ≠ j → primeProd i ≠ primeProd j := by
  decide

/-- C1 (amended): for every odd initial seed, the per-level seed table is
pairwise distinct up to `MAX_PARTITION_DEPTH = 16`.  The oddness restriction
is forced by the counterexample `seed_table_not_distinct_at_INT32_MIN`. -/
theorem seed_table_pairwise_distinct_of_odd (s i j maxLevels : Nat)
    (hodd : s % 2 = 1) (hij : i < j) (hj : j ≤ maxLevels)
    (hmax : maxLevels ≤ 16) : seedAt s i ≠ seedAt s j := by
  intro heq
  rw [seedAt_eq_mul_primeProd, seedAt_eq_mul_primeProd] at heq
  -- the reduced seed is still odd, hence a unit mod 2^32
  have hodd' : s % U32 % 2 = 1 := by
    have : s % U32 % 2 = s % 2 := Nat.mod_mod_of_dvd s (by decide)
    rw [this, hodd]
  have hcop2 : Nat.Coprime (s % U32) 2 := by
    rw [Nat.coprime_two_right, Nat.odd_iff]
    exact hodd'
  have hcop : Nat.gcd U32 (s % U32) = 1 := by
    have h1 : Nat.Coprime (s % U32) (2 ^ 32) := hcop2.pow_right 32
    have h2 : Nat.Coprime (2 ^ 32) (s % U32) := Nat.coprime_comm.mp h1
    simpa [U32, Nat.Coprime] using h2
  have hmodeq : primeProd i ≡ primeProd j [MOD U32] :=
    Nat.ModEq.cancel_left_of_coprime hcop heq
  have hpi : primeProd i % U32 = primeProd i := Nat.mod_eq_of_lt (primeProd_lt_U32 i)
  have hpj : primeProd j % U32 = primeProd j := Nat.mod_eq_of_lt (primeProd_lt_U32 j)
  have heq' : primeProd i = primeProd j := by
    have := hmodeq
    unfold Nat.ModEq at this
    rw [hpi, hpj] at this
    exact this
  have hj16 : j ≤ 16 := le_trans hj hmax
  have hi16 : i < 17 := Nat.lt_succ_of_le (le_trans (Nat.le_of_lt hij) hj16)
  exact primeProd_pairwise_distinct i hi16 j (Nat.lt_succ_of_le hj16)
    (Nat.ne_of_lt hij) heq'

/-- Witness for C1's amended theorem at the concrete odd seed 1. -/
theorem seed_table_pairwise_distinct_of_odd_witness :
    seedAt 1 0 ≠ seedAt 1 1 :=
  seed_table_pairwise_distinct_of_odd 1 0 1 16 (by decide) (by decide)
    (by decide) (by decide)

/-- C1 counterexample: the bit pattern `0x80000000` (`INT32_MIN`, a non-zero
32-bit initial seed) yields `seeds_[0] = seeds_[1] = 2^31`, because every
`SEED_PRIMES` entry is odd and `2^31 * odd ≡ 2^31 (mod 2^32)`. -/
theorem seed_table_not_distinct_at_INT32_MIN :
    2147483648 % U32 ≠ 0 ∧ seedAt 2147483648 0 = seedAt 2147483648 1 := by
  constructor
  · decide
  · decide

/-! ### HashContext: key evaluation, hashing and equality
(`HashTableCtx::EvalRow`, `HashCurrentRow`, `Equals`, hash-table.cc:148-232)

A key slot is modelled as an `Int` value; a row of key expressions as
`List (Option Int)` (`none` = the expression evaluated to NULL). -/

/-- `HashUtil::FNV_SEED` = `0x811c9dc5` (appears in hash-table.cc as the
constant `-2128831035` stored for NULL slots in the codegen IR). -/
def FNV_SEED : Nat := 2166136261

/-- The non-zero sentinel written into a NULL key's value slot
(`NULL_VALUE`, hash-table.cc:65-77: the FNV seed bytes repeated). -/
def NULL_SENTINEL : Int := 2166136261

/-- Packed value slots written by `HashTableCtx::EvalRow`
(hash-table.cc:160-180): the evaluated value, or `NULL_VALUE` for NULL. -/
def evalRowVals (row : List (Option Int)) : List Int :=
  row.map (fun v => match v with | some x => x | none => NULL_SENTINEL)

/-- Null flags written by `HashTableCtx::EvalRow`: `exprs_nullness[i]`. -/
def evalRowNulls (row : List (Option Int)) : List Bool :=
  row.map Option.isNone

/-- The `has_null` result of `EvalRow`. -/
def evalRowHasNull (row : List (Option Int)) : Bool := row.any Option.isNone

/-- `HashTableCtx::EvalRow`: with `stores_nulls_ = false` the loop returns
early on the first NULL key (modelled as `none`, the row is rejected);
otherwise the packed values, null flags and the `has_null` flag. -/
def evalRow (storesNulls : Bool) (row : List (Option Int)) :
    Option (List Int × List Bool × Bool) :=
  if !storesNulls && row.any Option.isNone then none
  else some (evalRowVals row, evalRowNulls row, evalRowHasNull row)

/-- Modelled from the spec: `HashUtil::Hash` (CRC32 with an FNV fallback) is
not under src/; per the spec it is a fast non-cryptographic multiplicative
hash of the buffer bytes, modelled FNV-style: state is mixed with each slot
value and multiplied by the odd FNV prime, wrapping mod 2^32. -/
def hashStep (h : Nat) (b : Int) : Nat :=
  (h + (b % (U32 : Int)).toNat) * 16777619 % U32

/-- Modelled from the spec: hash of a packed buffer with a 32-bit seed. -/
def hashBuffer (seed : Nat) (buf : List Int) : Nat :=
  buf.foldl hashStep (seed % U32)

/-- `HashTableCtx::HashCurrentRow` (fixed-length path, hash-table.cc:148-158):
hashes the packed value buffer `cur_expr_values_` with `seeds_[level]`.  The
null flags are not hashed; NULL keys are covered by the sentinel placed in
the buffer ("This handles NULLs implicitly since a constant seed value was
put into results buffer for nulls"). -/
def hashCurrentRow (seed : Nat) (row : List (Option Int)) : Nat :=
  hashBuffer seed (evalRowVals row)

/-- `HashTableCtx::Equals<FORCE_NULL_EQUALITY>` (hash-table.cc:210-232):
walks the keys; a NULL probe value matches only a flagged-null cached slot
and only when `FORCE_NULL_EQUALITY || finds_nulls_[i]`; a non-NULL probe
value matches only an unflagged cached slot with an equal raw value. -/
def equalsRow (force : Bool) :
    List Bool → List Int → List Bool → List (Option Int) → Bool
  | _, _, _, [] => true
  | fn :: fns, cv :: cvs, cn :: cns, v :: vs =>
    match v with
    | none =>
        if !(force || fn) then false
        else if !cn then false
        else equalsRow force fns cvs cns vs
    | some x =>
        if cn then false
        else if cv ≠ x then false
        else equalsRow force fns cvs cns vs
  | _, _, _, _ => false

theorem hashStep_lt (h : Nat) (b : Int) : hashStep h b < U32 :=
  Nat.mod_lt _ (by decide)

theorem toNat_emod_lt (b : Int) : (b % (U32 : Int)).toNat < U32 := by
  have h1 : b % (U32 : Int) < (U32 : Int) := Int.emod_lt_of_pos b (by decide)
  have h2 : (0 : Int) ≤ b % (U32 : Int) := Int.emod_nonneg b (by decide)
  omega

theorem hashStep_inj_state (b : Int) (h1 h2 : Nat) (hl1 : h1 < U32)
    (hl2 : h2 < U32) (hne : h1 ≠ h2) : hashStep h1 b ≠ hashStep h2 b := by
  intro heq
  unfold hashStep at heq
  have hcop : Nat.gcd U32 16777619 = 1 := by decide
  have hmodeq := Nat.ModEq.cancel_right_of_coprime hcop heq
  have := Nat.ModEq.add_right_cancel' _ hmodeq
  unfold Nat.ModEq at this
  rw [Nat.mod_eq_of_lt hl1, Nat.mod_eq_of_lt hl2] at this
  exact hne this

theorem hashStep_inj_val (h : Nat) (b1 b2 : Int)
    (hne : (b1 % (U32 : Int)).toNat ≠ (b2 % (U32 : Int)).toNat) :
    hashStep h b1 ≠ hashStep h b2 := by
  intro heq
  unfold hashStep at heq
  have hcop : Nat.gcd U32 16777619 = 1 := by decide
  have hmodeq := Nat.ModEq.cancel_right_of_coprime hcop heq
  have := Nat.ModEq.add_left_cancel' _ hmodeq
  unfold Nat.ModEq at this
  rw [Nat.mod_eq_of_lt (toNat_emod_lt b1), Nat.mod_eq_of_lt (toNat_emod_lt b2)]
    at this
  exact hne this

theorem foldl_hashStep_ne (t : List Int) :
    ∀ h1 h2 : Nat, h1 < U32 → h2 < U32 → h1 ≠ h2 →
      t.foldl hashStep h1 ≠ t.foldl hashStep h2 := by
  induction t with
  | nil => intro h1 h2 _ _ hne; simpa using hne
  | cons b t ih =>
      intro h1 h2 hl1 hl2 hne
      simp only [List.foldl_cons]
      exact ih _ _ (hashStep_lt h1 b) (hashStep_lt h2 b)
        (hashStep_inj_state b h1 h2 hl1 hl2 hne)

/-- Buffers that differ at one slot (mod 2^32) hash differently under the
modelled hash. -/
theorem hashBuffer_ne_of_slot_ne (seed : Nat) (pre suf : List Int)
    (b1 b2 : Int) (hne : (b1 % (U32 : Int)).toNat ≠ (b2 % (U32 : Int)).toNat) :
    hashBuffer seed (pre ++ b1 :: suf) ≠ hashBuffer seed (pre ++ b2 :: suf) := by
  unfold hashBuffer
  rw [List.foldl_append, List.foldl_append]
  simp only [List.foldl_cons]
  exact foldl_hashStep_ne suf _ _ (hashStep_lt _ b1) (hashStep_lt _ b2)
    (hashStep_inj_val _ b1 b2 hne)

/-- Any present null-status mismatch between the probed row and the cached
flags makes `Equals` return false. -/
theorem equalsRow_false_of_null_mismatch (force : Bool) :
    ∀ (fns : List Bool) (cvs : List Int) (cns : List Bool)
      (vs : List (Option Int)) (i : Nat),
      ((vs[i]? = some none ∧ cns[i]? = some false) ∨
        (∃ x, vs[i]? = some (some x) ∧ cns[i]? = some true)) →
      equalsRow force fns cvs cns vs = false := by
  intro fns cvs cns vs
  induction vs generalizing fns cvs cns with
  | nil => intro i h; rcases h with ⟨h, _⟩ | ⟨x, h, _⟩ <;> simp at h
  | cons v vs ih =>
      intro i h
      match fns, cvs, cns with
      | [], _, _ => rfl
      | _ :: _, [], _ => rfl
      | _ :: _, _ :: _, [] => rfl
      | fn :: fns, cv :: cvs, cn :: cns =>
        match i with
        | 0 =>
            rcases h with ⟨hv, hcn⟩ | ⟨x, hv, hcn⟩
            · simp only [List.getElem?_cons_zero, Option.some.injEq] at hv hcn
              subst hv; subst hcn
              simp [equalsRow]
            · simp only [List.getElem?_cons_zero, Option.some.injEq] at hv hcn
              subst hv; subst hcn
              simp [equalsRow]
        | Nat.succ j =>
            have htail : equalsRow force fns cvs cns vs = false := by
              apply ih fns cvs cns j
              simpa using h
            cases v with
            | none => simp [equalsRow, htail]
            | some x => simp [equalsRow, htail]

/-- The per-key match condition of `Equals`: a NULL probe value requires a
flagged-null cached slot and `force || finds_nulls[i]`; a non-NULL probe
value requires an unflagged cached slot with an equal raw value. -/
def keyMatches (force fn : Bool) (cv : Int) (cn : Bool) (v : Option Int) :
    Prop :=
  match v with
  | none => cn = true ∧ (force || fn) = true
  | some x => cn = false ∧ cv = x

/-- C5: `Equals` returns true iff every key position matches: both NULL with
`FORCE_NULL_EQUALITY || finds_nulls[i]`, or both non-NULL and equal raw
values; mismatched null status always yields inequality. -/
theorem equals_iff_all_keys_match (force : Bool) :
    ∀ (fns : List Bool) (cvs : List Int) (cns : List Bool)
      (vs : List (Option Int)),
      fns.length = vs.length → cvs.length = vs.length →
      cns.length = vs.length →
      (equalsRow force fns cvs cns vs = true ↔
        ∀ i, i < vs.length →
          keyMatches force (fns.getD i false) (cvs.getD i 0)
            (cns.getD i false) (vs.getD i none)) := by
  intro fns cvs cns vs
  induction vs generalizing fns cvs cns with
  | nil =>
      intro h1 h2 h3
      match fns, cvs, cns with
      | [], [], [] => simp [equalsRow]
  | cons v vs ih =>
      intro h1 h2 h3
      match fns, cvs, cns with
      | fn :: fns, cv :: cvs, cn :: cns =>
        have hlen1 : fns.length = vs.length := by simpa using h1
        have hlen2 : cvs.length = vs.length := by simpa using h2
        have hlen3 : cns.length = vs.length := by simpa using h3
        have ihtail := ih fns cvs cns hlen1 hlen2 hlen3
        constructor
        · intro heq i hi
          match i with
          | 0 =>
              simp only [List.getD_cons_zero]
              cases v with
              | none =>
                  by_cases hforce : (force || fn) = true
                  · by_cases hcn : cn = true
                    · exact ⟨hcn, hforce⟩
                    · exfalso
                      simp [equalsRow, hforce, (Bool.not_eq_true _ ▸ hcn)] at heq
                  · exfalso
                    simp [equalsRow, (Bool.not_eq_true _ ▸ hforce)]
                      at heq
              | some x =>
                  by_cases hcn : cn = true
                  · exfalso; simp [equalsRow, hcn] at heq
                  · by_cases hcv : cv = x
                    · exact ⟨(Bool.not_eq_true _ ▸ hcn), hcv⟩
                    · exfalso
                      simp [equalsRow, (Bool.not_eq_true _ ▸ hcn), hcv] at heq
          | Nat.succ j =>
              have hj : j < vs.length := by simpa using hi
              have htail : equalsRow force fns cvs cns vs = true := by
                cases v with
                | none =>
                    by_cases hforce : (force || fn) = true
                    · by_cases hcn : cn = true
                      · simpa [equalsRow, hforce, hcn] using heq
                      · simp [equalsRow, hforce, (Bool.not_eq_true _ ▸ hcn)]
                          at heq
                    · simp [equalsRow,
                        (Bool.not_eq_true _ ▸ hforce)] at heq
                | some x =>
                    by_cases hcn : cn = true
                    · simp [equalsRow, hcn] at heq
                    · by_cases hcv : cv = x
                      · simpa [equalsRow, (Bool.not_eq_true _ ▸ hcn), hcv]
                          using heq
                      · simp [equalsRow, (Bool.not_eq_true _ ▸ hcn), hcv] at heq
              simpa using (ihtail.mp htail) j hj
        · intro hall
          have hhead := hall 0 (Nat.succ_pos _)
          simp only [List.getD_cons_zero] at hhead
          have htail : equalsRow force fns cvs cns vs = true := by
            apply ihtail.mpr
            intro j hj
            simpa using hall (j + 1) (by simpa using hj)
          cases v with
          | none =>
              obtain ⟨hcn, hforce⟩ := hhead
              simp [equalsRow, hforce, hcn, htail]
          | some x =>
              obtain ⟨hcn, hcv⟩ := hhead
              simp [equalsRow, hcn, hcv, htail]

/-- Witness for C5 at a concrete configuration: one NULL key matched under
`finds_nulls`, one non-NULL equal key. -/
theorem equals_iff_all_keys_match_witness :
    equalsRow false [true, false] [7, 5] [true, false] [none, some 5]
        = true ↔
      ∀ i, i < 2 →
        keyMatches false ([true, false].getD i false) ([7, 5].getD i 0)
          ([true, false].getD i false) ([none, some 5].getD i none) :=
  equals_iff_all_keys_match false [true, false] [7, 5] [true, false]
    [none, some 5] rfl rfl rfl

/-- C4: a NULL key is stored as the fixed non-zero sentinel with its null
flag set; consequently the rows `(NULL, x)` and `(0, x)` hash differently
(the packed buffers differ at the NULL slot) and `Equals` never reports
them equal (the null status mismatches in either direction). -/
theorem null_key_contract (row rpre rsuf vs : List (Option Int))
    (fns cns : List Bool) (cvs : List Int) (force : Bool) (seed i j : Nat)
    (x : Int) :
    (row[i]? = some none →
      (evalRowVals row)[i]? = some NULL_SENTINEL ∧
      (evalRowNulls row)[i]? = some true) ∧
    NULL_SENTINEL ≠ 0 ∧
    hashCurrentRow seed (rpre ++ none :: rsuf) ≠
      hashCurrentRow seed (rpre ++ some 0 :: rsuf) ∧
    (vs[j]? = some none → cns[j]? = some false →
      equalsRow force fns cvs cns vs = false) ∧
    (vs[j]? = some (some x) → cns[j]? = some true →
      equalsRow force fns cvs cns vs = false) := by
  refine ⟨?_, by decide, ?_, ?_, ?_⟩
  · intro hnull
    constructor
    · rw [evalRowVals, List.getElem?_map, hnull]
      rfl
    · rw [evalRowNulls, List.getElem?_map, hnull]
      rfl
  · unfold hashCurrentRow
    have hmap : ∀ y : Option Int, evalRowVals (rpre ++ y :: rsuf) =
        evalRowVals rpre ++
          (match y with | some z => z | none => NULL_SENTINEL) ::
            evalRowVals rsuf := by
      intro y
      simp [evalRowVals]
    rw [hmap none, hmap (some 0)]
    exact hashBuffer_ne_of_slot_ne seed (evalRowVals rpre) (evalRowVals rsuf)
      NULL_SENTINEL 0 (by decide)
  · intro hv hcn
    exact equalsRow_false_of_null_mismatch force fns cvs cns vs j
      (Or.inl ⟨hv, hcn⟩)
  · intro hv hcn
    exact equalsRow_false_of_null_mismatch force fns cvs cns vs j
      (Or.inr ⟨x, hv, hcn⟩)

/-- Witness for C4 at the concrete rows `(NULL, 3)` and `(0, 3)`. -/
theorem null_key_contract_witness :
    ((evalRowVals [none, some 3])[0]? = some NULL_SENTINEL ∧
      (evalRowNulls [none, some 3])[0]? = some true) ∧
    hashCurrentRow 1 [none, some 3] ≠ hashCurrentRow 1 [some 0, some 3] ∧
    equalsRow true [true, true] (evalRowVals [some 0, some 3])
      (evalRowNulls [some 0, some 3]) [none, some 3] = false := by
  have h := null_key_contract [none, some 3] [] [some 3] [none, some 3]
    [true, true] (evalRowNulls [some 0, some 3])
    (evalRowVals [some 0, some 3]) true 1 0 0 0
  exact ⟨h.1 rfl, h.2.2.1, h.2.2.2.1 rfl rfl⟩

/-! ### HashTable resizing
(`HashTable::CheckAndResize` / `ResizeBuckets`, hash-table.cc:408-462)

`MAX_FILL_FACTOR = 0.75`; the comparison
`num_filled + to_fill > (num_buckets << shift) * 0.75` is exact for these
power-of-two operands, so it is modelled as the integer comparison
`4 * (num_filled + to_fill) > 3 * (num_buckets << shift)`.  Memory
consumption through the block manager is a boolean oracle of the requested
bucket count (the byte request is `num_buckets * sizeof(Bucket)`). -/

/-- The table state that `CheckAndResize`/`ResizeBuckets` reads and writes:
`num_buckets_` (a positive power of two), `num_filled_buckets_`,
`max_num_buckets_` (-1 = unlimited) and the `num_resizes_` statistic. -/
structure HashTableState where
  numBuckets : Nat
  numFilledBuckets : Nat
  maxNumBuckets : Int
  numResizes : Nat
deriving Repr, DecidableEq

/-- The `while` loop of `CheckAndResize` searching for the shift, with fuel
(the C++ loop terminates because `num_buckets_ > 0`). -/
def fillShiftLoop (nb target : Nat) : Nat → Nat → Nat
  | s, 0 => s
  | s, fuel + 1 =>
      if 4 * target ≤ 3 * (nb <<< s) then s
      else fillShiftLoop nb target (s + 1) fuel

/-- The shift computed by `CheckAndResize`: the smallest `s` with
`num_filled + to_fill ≤ 0.75 * (num_buckets << s)`. -/
def requiredShift (nb target : Nat) : Nat :=
  fillShiftLoop nb target 0 (4 * target + 1)

/-- `HashTable::ResizeBuckets` (hash-table.cc:419-462): fails leaving the
bucket array alone when the caller maximum would be exceeded; then counts
the resize; fails when memory consumption fails; otherwise installs the new
bucket count. -/
def resizeBuckets (memOk : Nat → Bool) (ht : HashTableState) (nb : Nat) :
    Bool × HashTableState :=
  if ht.maxNumBuckets ≠ -1 ∧ (nb : Int) > ht.maxNumBuckets then (false, ht)
  else
    let ht1 : HashTableState := { ht with numResizes := ht.numResizes + 1 }
    if !memOk nb then (false, ht1)
    else (true, { ht1 with numBuckets := nb })

/-- `HashTable::CheckAndResize` (hash-table.cc:408-417). -/
def checkAndResize (memOk : Nat → Bool) (ht : HashTableState)
    (bucketsToFill : Nat) : Bool × HashTableState :=
  let shift := requiredShift ht.numBuckets (ht.numFilledBuckets + bucketsToFill)
  if shift > 0 then resizeBuckets memOk ht (ht.numBuckets <<< shift)
  else (true, ht)

theorem fillShiftLoop_spec (nb target : Nat) :
    ∀ (fuel s : Nat), 4 * target ≤ 3 * (nb <<< (s + fuel)) →
      s ≤ fillShiftLoop nb target s fuel ∧
      4 * target ≤ 3 * (nb <<< fillShiftLoop nb target s fuel) ∧
      ∀ t, s ≤ t → t < fillShiftLoop nb target s fuel →
        ¬ 4 * target ≤ 3 * (nb <<< t) := by
  intro fuel
  induction fuel with
  | zero =>
      intro s hbound
      refine ⟨Nat.le_refl s, by simpa using hbound, ?_⟩
      intro t hst hts
      simp only [fillShiftLoop] at hts
      omega
  | succ fuel ih =>
      intro s hbound
      by_cases hc : 4 * target ≤ 3 * (nb <<< s)
      · refine ⟨?_, ?_, ?_⟩
        · simp [fillShiftLoop, hc]
        · simp only [fillShiftLoop, if_pos hc]; exact hc
        · intro t hst hts
          simp only [fillShiftLoop, if_pos hc] at hts
          omega
      · have hbound' : 4 * target ≤ 3 * (nb <<< (s + 1 + fuel)) := by
          have : s + 1 + fuel = s + (fuel + 1) := by omega
          rw [this]
          exact hbound
        obtain ⟨h1, h2, h3⟩ := ih (s + 1) hbound'
        have hloop : fillShiftLoop nb target s (fuel + 1) =
            fillShiftLoop nb target (s + 1) fuel := by
          simp [fillShiftLoop, hc]
        refine ⟨by rw [hloop]; omega, ?_, ?_⟩
        · rw [hloop]; exact h2
        · intro t hst hts
          rw [hloop] at hts
          rcases Nat.eq_or_lt_of_le hst with heq | hlt
          · subst heq; exact hc
          · exact h3 t hlt hts

theorem requiredShift_spec (nb target : Nat) (hnb : 1 ≤ nb) :
    4 * target ≤ 3 * (nb <<< requiredShift nb target) ∧
    ∀ t, t < requiredShift nb target → ¬ 4 * target ≤ 3 * (nb <<< t) := by
  have hfuel : 4 * target ≤ 3 * (nb <<< (0 + (4 * target + 1))) := by
    rw [Nat.zero_add, Nat.shiftLeft_eq]
    have h1 : 4 * target + 1 < 2 ^ (4 * target + 1) := Nat.lt_two_pow _
    have h2 : 2 ^ (4 * target + 1) ≤ nb * 2 ^ (4 * target + 1) :=
      Nat.le_mul_of_pos_left _ hnb
    omega
  obtain ⟨_, h2, h3⟩ := fillShiftLoop_spec nb target (4 * target + 1) 0 hfuel
  exact ⟨h2, fun t ht => h3 t (Nat.zero_le t) ht⟩

theorem requiredShift_eq_zero_iff (nb target : Nat) (hnb : 1 ≤ nb) :
    requiredShift nb target = 0 ↔ 4 * target ≤ 3 * nb := by
  obtain ⟨h2, h3⟩ := requiredShift_spec nb target hnb
  constructor
  · intro h0
    rw [h0] at h2
    simpa using h2
  · intro hc
    by_contra hne
    exact h3 0 (Nat.pos_of_ne_zero hne) (by simpa using hc)

/-- C6: `CheckAndResize(buckets_to_fill)` targets the smallest power-of-two
doubling of `num_buckets` keeping `num_filled + buckets_to_fill` within the
0.75 fill factor; it does nothing and returns true when the current size
already satisfies the bound; it returns false exactly when growth is needed
but the required size exceeds `max_num_buckets` or memory consumption fails,
and then the bucket array and fill count are unchanged; on success the new
size is installed. -/
theorem checkAndResize_spec (memOk : Nat → Bool) (ht : HashTableState)
    (fill : Nat) (hnb : 1 ≤ ht.numBuckets) :
    (4 * (ht.numFilledBuckets + fill) ≤
        3 * (ht.numBuckets <<<
          requiredShift ht.numBuckets (ht.numFilledBuckets + fill)) ∧
      ∀ t, t < requiredShift ht.numBuckets (ht.numFilledBuckets + fill) →
        ¬ 4 * (ht.numFilledBuckets + fill) ≤ 3 * (ht.numBuckets <<< t)) ∧
    (4 * (ht.numFilledBuckets + fill) ≤ 3 * ht.numBuckets →
      checkAndResize memOk ht fill = (true, ht)) ∧
    ((checkAndResize memOk ht fill).1 = true →
      (checkAndResize memOk ht fill).2.numBuckets =
        ht.numBuckets <<<
          requiredShift ht.numBuckets (ht.numFilledBuckets + fill)) ∧
    ((checkAndResize memOk ht fill).1 = false ↔
      ¬ 4 * (ht.numFilledBuckets + fill) ≤ 3 * ht.numBuckets ∧
      ((ht.maxNumBuckets ≠ -1 ∧
          ((ht.numBuckets <<<
            requiredShift ht.numBuckets (ht.numFilledBuckets + fill) : Nat) :
              Int) > ht.maxNumBuckets) ∨
        memOk (ht.numBuckets <<<
          requiredShift ht.numBuckets (ht.numFilledBuckets + fill)) =
            false)) ∧
    ((checkAndResize memOk ht fill).1 = false →
      (checkAndResize memOk ht fill).2.numBuckets = ht.numBuckets ∧
      (checkAndResize memOk ht fill).2.numFilledBuckets =
        ht.numFilledBuckets) := by
  obtain ⟨hb, hmin⟩ :=
    requiredShift_spec ht.numBuckets (ht.numFilledBuckets + fill) hnb
  refine ⟨⟨hb, hmin⟩, ?_, ?_, ?_, ?_⟩
  · intro hcur
    have h0 : requiredShift ht.numBuckets (ht.numFilledBuckets + fill) = 0 :=
      (requiredShift_eq_zero_iff _ _ hnb).mpr hcur
    simp [checkAndResize, h0]
  · intro htrue
    by_cases h0 : requiredShift ht.numBuckets (ht.numFilledBuckets + fill) = 0
    · simp only [checkAndResize, h0] at htrue ⊢
      simp only [Nat.lt_irrefl, if_false] at htrue ⊢
      simp [h0]
    · have hpos : 0 < requiredShift ht.numBuckets (ht.numFilledBuckets + fill) :=
        Nat.pos_of_ne_zero h0
      simp only [checkAndResize, if_pos hpos] at htrue ⊢
      unfold resizeBuckets at htrue ⊢
      by_cases hmax : ht.maxNumBuckets ≠ -1 ∧
          ((ht.numBuckets <<<
            requiredShift ht.numBuckets (ht.numFilledBuckets + fill) : Nat) :
              Int) > ht.maxNumBuckets
      · simp [hmax] at htrue
      · by_cases hmem : memOk (ht.numBuckets <<<
            requiredShift ht.numBuckets (ht.numFilledBuckets + fill)) = true
        · simp [hmax, hmem]
        · simp only [Bool.not_eq_true] at hmem
          simp [hmax, hmem] at htrue
  · constructor
    · intro hfalse
      by_cases h0 : requiredShift ht.numBuckets (ht.numFilledBuckets + fill)
          = 0
      · simp [checkAndResize, h0] at hfalse
      · have hpos : 0 <
            requiredShift ht.numBuckets (ht.numFilledBuckets + fill) :=
          Nat.pos_of_ne_zero h0
        refine ⟨fun hcur => h0 ((requiredShift_eq_zero_iff _ _ hnb).mpr hcur),
          ?_⟩
        simp only [checkAndResize, if_pos hpos] at hfalse
        unfold resizeBuckets at hfalse
        by_cases hmax : ht.maxNumBuckets ≠ -1 ∧
            ((ht.numBuckets <<<
              requiredShift ht.numBuckets (ht.numFilledBuckets + fill) :
                Nat) : Int) > ht.maxNumBuckets
        · exact Or.inl hmax
        · by_cases hmem : memOk (ht.numBuckets <<<
              requiredShift ht.numBuckets (ht.numFilledBuckets + fill)) =
                true
          · simp [hmax, hmem] at hfalse
          · exact Or.inr (Bool.not_eq_true _ ▸ hmem)
    · intro ⟨hcur, hrest⟩
      have h0 : requiredShift ht.numBuckets (ht.numFilledBuckets + fill) ≠ 0 :=
        fun h => hcur ((requiredShift_eq_zero_iff _ _ hnb).mp h)
      have hpos : 0 < requiredShift ht.numBuckets (ht.numFilledBuckets + fill) :=
        Nat.pos_of_ne_zero h0
      simp only [checkAndResize, if_pos hpos]
      unfold resizeBuckets
      rcases hrest with hmax | hmem
      · simp [hmax]
      · by_cases hmax : ht.maxNumBuckets ≠ -1 ∧
            ((ht.numBuckets <<<
              requiredShift ht.numBuckets (ht.numFilledBuckets + fill) :
                Nat) : Int) > ht.maxNumBuckets
        · simp [hmax]
        · simp [hmax, hmem]
  · intro hfalse
    by_cases h0 : requiredShift ht.numBuckets (ht.numFilledBuckets + fill) = 0
    · simp [checkAndResize, h0] at hfalse
    · have hpos : 0 < requiredShift ht.numBuckets (ht.numFilledBuckets + fill) :=
        Nat.pos_of_ne_zero h0
      simp only [checkAndResize, if_pos hpos] at hfalse ⊢
      unfold resizeBuckets at hfalse ⊢
      by_cases hmax : ht.maxNumBuckets ≠ -1 ∧
          ((ht.numBuckets <<<
            requiredShift ht.numBuckets (ht.numFilledBuckets + fill) : Nat) :
              Int) > ht.maxNumBuckets
      · simp [hmax]
      · by_cases hmem : memOk (ht.numBuckets <<<
            requiredShift ht.numBuckets (ht.numFilledBuckets + fill)) = true
        · simp [hmax, hmem] at hfalse
        · simp only [Bool.not_eq_true] at hmem
          simp [hmax, hmem]

/-- Witness for C6 at a concrete table: 1024 buckets, 700 filled, adding 200
rows forces one doubling to 2048, within the maximum, memory granted. -/
theorem checkAndResize_spec_witness :
    (checkAndResize (fun _ => true) ⟨1024, 700, 1048576, 0⟩ 200).2.numBuckets
      = 1024 <<< requiredShift 1024 900 :=
  (checkAndResize_spec (fun _ => true) ⟨1024, 700, 1048576, 0⟩ 200
    (by decide)).2.2.1 (by decide)

/-! ### Close paths
(`HashTable::Close` hash-table.cc:390-406,
`HashTableCtx::ExprValuesCache::Close` hash-table.cc:290-302,
`PartitionedAggregationNode::Partition::Close`
partitioned-aggregation-node.cc:897-916)

The observable effects of a close are modelled as state: which resources are
still held and the cumulative amounts handed back to the metric / block
manager / memory tracker. -/

/-- `sizeof(Bucket)`: 32-bit cached hash plus flag bits plus the 8-byte
tuple-slot/duplicate-head union (the header is not under src/; the exact
constant is irrelevant to the theorems below). -/
def BUCKET_BYTE_SIZE : Nat := 16

/-- State read and written by `HashTable::Close`.  `bucketsAllocated` is
`buckets_ != NULL`; `freedBucketBytes` accumulates the bytes passed to
`free(buckets_)`; `releasedToBlockMgr` accumulates the bytes passed to
`BufferedBlockMgr::ReleaseMemory`; `metricBytes` is the process-wide
`HASH_TABLE_TOTAL_BYTES` metric. -/
structure HashTableCloseState where
  dataPages : List Nat
  totalDataPageSize : Nat
  metricBytes : Int
  bucketsAllocated : Bool
  numBuckets : Nat
  freedBucketBytes : Nat
  releasedToBlockMgr : Nat
deriving Repr, DecidableEq

/-- `HashTable::Close` (hash-table.cc:390-406): deletes and clears the data
pages, decrements the global metric by `total_data_page_size_`, frees
`buckets_` when non-NULL, and releases `num_buckets_ * sizeof(Bucket)` to
the block manager.  Note that `buckets_`, `num_buckets_` and
`total_data_page_size_` are *not* reset. -/
def hashTableClose (s : HashTableCloseState) : HashTableCloseState :=
  { s with
    dataPages := [],
    metricBytes := s.metricBytes - (s.totalDataPageSize : Int),
    freedBucketBytes := s.freedBucketBytes +
      (if s.bucketsAllocated then s.numBuckets * BUCKET_BYTE_SIZE else 0),
    releasedToBlockMgr := s.releasedToBlockMgr +
      s.numBuckets * BUCKET_BYTE_SIZE }

/-- State read and written by `ExprValuesCache::Close`: `capacity_`, the
fixed `MemUsage(capacity_, expr_values_bytes_per_row_, num_exprs_)` value,
whether the arrays are still allocated, and the bytes released to the
`MemTracker`. -/
structure ExprValuesCacheState where
  capacity : Nat
  memUsage : Nat
  arraysAllocated : Bool
  trackerReleased : Nat
deriving Repr, DecidableEq

/-- `ExprValuesCache::Close` (hash-table.cc:290-302): no-op when
`capacity_ == 0`; otherwise resets the arrays and releases `MemUsage(...)`
bytes from the tracker.  `capacity_` itself is *not* reset. -/
def exprValuesCacheClose (s : ExprValuesCacheState) : ExprValuesCacheState :=
  if s.capacity = 0 then s
  else { s with
    arraysAllocated := false,
    trackerReleased := s.trackerReleased + s.memUsage }

/-- State read and written by `Partition::Close` of the aggregation node:
the `is_closed` guard and whether each owned resource is still open. -/
structure AggPartitionState where
  isClosed : Bool
  aggregatedStreamOpen : Bool
  unaggregatedStreamOpen : Bool
  hashTblOpen : Bool
  aggFnPoolOpen : Bool
deriving Repr, DecidableEq

/-- `PartitionedAggregationNode::Partition::Close`
(partitioned-aggregation-node.cc:897-916): guarded by `is_closed`; closes
the streams, the hash table, the aggregate-function contexts and frees the
pool. -/
def aggPartitionClose (p : AggPartitionState) : AggPartitionState :=
  if p.isClosed then p
  else { isClosed := true,
         aggregatedStreamOpen := false,
         unaggregatedStreamOpen := false,
         hashTblOpen := false,
         aggFnPoolOpen := false }

/-- C9 (amended): `Partition::Close` is idempotent thanks to its `is_closed`
guard, but `HashTable::Close` and `ExprValuesCache::Close` are not: lacking
a guard (and not resetting `num_buckets_` resp. `capacity_`), a second call
repeats the memory release. -/
theorem close_idempotency_status (p : AggPartitionState)
    (s : HashTableCloseState) (e : ExprValuesCacheState)
    (he : e.capacity ≠ 0) :
    aggPartitionClose (aggPartitionClose p) = aggPartitionClose p ∧
    (hashTableClose (hashTableClose s)).releasedToBlockMgr =
      (hashTableClose s).releasedToBlockMgr +
        s.numBuckets * BUCKET_BYTE_SIZE ∧
    (exprValuesCacheClose (exprValuesCacheClose e)).trackerReleased =
      (exprValuesCacheClose e).trackerReleased + e.memUsage := by
  refine ⟨?_, ?_, ?_⟩
  · unfold aggPartitionClose
    by_cases hp : p.isClosed
    · simp [hp]
    · simp [hp]
  · simp [hashTableClose]
  · simp only [exprValuesCacheClose, if_neg he]

/-- Witness for C9's amended theorem at concrete states. -/
theorem close_idempotency_status_witness :
    aggPartitionClose (aggPartitionClose ⟨false, true, true, true, true⟩) =
        aggPartitionClose ⟨false, true, true, true, true⟩ ∧
    (hashTableClose (hashTableClose
        ⟨[65536], 65536, 65536, true, 1024, 0, 0⟩)).releasedToBlockMgr =
      (hashTableClose
        ⟨[65536], 65536, 65536, true, 1024, 0, 0⟩).releasedToBlockMgr +
          1024 * BUCKET_BYTE_SIZE ∧
    (exprValuesCacheClose (exprValuesCacheClose
        ⟨16, 4096, true, 0⟩)).trackerReleased =
      (exprValuesCacheClose ⟨16, 4096, true, 0⟩).trackerReleased + 4096 :=
  close_idempotency_status ⟨false, true, true, true, true⟩
    ⟨[65536], 65536, 65536, true, 1024, 0, 0⟩ ⟨16, 4096, true, 0⟩ (by decide)

/-- C9 counterexample: a second `HashTable::Close` on a table that had 1024
buckets releases another 16 KiB to the block manager, so close-twice is not
a no-op on the second call. -/
theorem hashTable_close_twice_not_noop :
    hashTableClose (hashTableClose ⟨[65536], 65536, 65536, true, 1024, 0, 0⟩)
      ≠ hashTableClose ⟨[65536], 65536, 65536, true, 1024, 0, 0⟩ := by
  decide

/-! ### Partition spilling
(`PartitionedAggregationNode::SpillPartition`,
partitioned-aggregation-node.cc:1309-1334, and
`PartitionedHashJoinNode::SpillPartition`,
partitioned-hash-join-node.cc:577-613)

Both operators scan `hash_partitions_`, skip non-candidates, and track the
index of the largest memory footprint seen so far (strictly greater than the
running maximum, which starts at 0). -/

/-- The scan over the partitions: each entry is `none` (skipped by a
`continue`) or `some mem`; tracks the current index, the running
`max_freed_mem` and the best index (`partition_idx`, `none` = -1). -/
def spillPickAux : List (Option Nat) → Nat → Nat → Option Nat → Option Nat
  | [], _, _, best => best
  | none :: rest, i, maxMem, best => spillPickAux rest (i + 1) maxMem best
  | some m :: rest, i, maxMem, best =>
      if maxMem < m then spillPickAux rest (i + 1) m (some i)
      else spillPickAux rest (i + 1) maxMem best

/-- The index selected by the `SpillPartition` scan (`none` = no partition
found, `partition_idx == -1`). -/
def spillPick (cands : List (Option Nat)) : Option Nat :=
  spillPickAux cands 0 0 none

theorem spillPickAux_spec :
    ∀ (l : List (Option Nat)) (i maxMem : Nat) (best : Option Nat),
      (spillPickAux l i maxMem best = best ∧
        ∀ (j m : Nat), l[j]? = some (some m) → m ≤ maxMem) ∨
      (∃ j m, spillPickAux l i maxMem best = some (i + j) ∧
        l[j]? = some (some m) ∧ maxMem < m ∧
        ∀ (j2 m2 : Nat), l[j2]? = some (some m2) → m2 ≤ m) := by
  intro l
  induction l with
  | nil =>
      intro i maxMem best
      left
      exact ⟨rfl, by intro j m h; simp at h⟩
  | cons c rest ih =>
      intro i maxMem best
      match c with
      | none =>
          rcases ih (i + 1) maxMem best with ⟨h1, h2⟩ | ⟨j, m, h1, h2, h3, h4⟩
          · left
            refine ⟨h1, ?_⟩
            intro j m hj
            match j with
            | 0 => simp at hj
            | Nat.succ j2 =>
                exact h2 j2 m (by simpa using hj)
          · right
            refine ⟨j + 1, m, ?_, by simpa using h2, h3, ?_⟩
            · show spillPickAux rest (i + 1) maxMem best = _
              rw [h1]
              congr 1
              omega
            · intro j2 m2 hj2
              match j2 with
              | 0 => simp at hj2
              | Nat.succ j3 => exact h4 j3 m2 (by simpa using hj2)
      | some m =>
          by_cases hlt : maxMem < m
          · rcases ih (i + 1) m (some i) with ⟨h1, h2⟩ | ⟨j, m2, h1, h2, h3, h4⟩
            · right
              refine ⟨0, m, ?_, by simp, hlt, ?_⟩
              · simp only [spillPickAux, if_pos hlt]
                rw [h1]
                simp
              · intro j2 m2 hj2
                match j2 with
                | 0 => simp at hj2; omega
                | Nat.succ j3 => exact h2 j3 m2 (by simpa using hj2)
            · right
              refine ⟨j + 1, m2, ?_, by simpa using h2, by omega, ?_⟩
              · simp only [spillPickAux, if_pos hlt]
                rw [h1]
                congr 1
                omega
              · intro j2 m3 hj2
                match j2 with
                | 0 => simp at hj2; omega
                | Nat.succ j3 => exact h4 j3 m3 (by simpa using hj2)
          · rcases ih (i + 1) maxMem best with ⟨h1, h2⟩ | ⟨j, m2, h1, h2, h3, h4⟩
            · left
              refine ⟨by simp [spillPickAux, hlt, h1], ?_⟩
              intro j m2 hj
              match j with
              | 0 => simp at hj; omega
              | Nat.succ j3 => exact h2 j3 m2 (by simpa using hj)
            · right
              refine ⟨j + 1, m2, ?_, by simpa using h2, h3, ?_⟩
              · show spillPickAux (some m :: rest) i maxMem best = _
                simp only [spillPickAux, if_neg hlt]
                rw [h1]
                congr 1
                omega
              · intro j2 m3 hj2
                match j2 with
                | 0 => simp at hj2; omega
                | Nat.succ j3 => exact h4 j3 m3 (by simpa using hj2)

theorem spillPick_none_iff (cands : List (Option Nat)) :
    spillPick cands = none ↔
      ∀ (j m : Nat), cands[j]? = some (some m) → m = 0 := by
  rcases spillPickAux_spec cands 0 0 none with ⟨h1, h2⟩ | ⟨j, m, h1, h2, h3, h4⟩
  · unfold spillPick
    rw [h1]
    simp only [true_iff]
    intro j m hj
    exact Nat.le_zero.mp (h2 j m hj)
  · unfold spillPick
    rw [h1]
    constructor
    · intro hcontr
      simp at hcontr
    · intro hall
      exact absurd (hall j m h2) (by omega)

theorem spillPick_some_spec (cands : List (Option Nat)) (i : Nat)
    (h : spillPick cands = some i) :
    ∃ m, cands[i]? = some (some m) ∧ 0 < m ∧
      ∀ (j m2 : Nat), cands[j]? = some (some m2) → m2 ≤ m := by
  rcases spillPickAux_spec cands 0 0 none with ⟨h1, _⟩ | ⟨j, m, h1, h2, h3, h4⟩
  · rw [spillPick, h1] at h
    exact absurd h (by simp)
  · rw [spillPick, h1] at h
    have hij : i = j := by simpa using h.symm
    subst hij
    exact ⟨m, h2, h3, h4⟩

/-- `PARTITION_FANOUT = 1 << NUM_PARTITIONING_BITS` (= 16, checked by the
constructor DCHECK in partitioned-aggregation-node.cc:135). -/
def PARTITION_FANOUT : Nat := 16

/-- `MAX_PARTITION_DEPTH` (= 16; the header is not under src/, the value is
bounded by the `DCHECK_LT(max_levels, 17)` on the seed table). -/
def MAX_PARTITION_DEPTH : Nat := 16

/-- Errors surfaced by the aggregation node paths modelled here. -/
inductive AggError
  | maxPartitionDepth
  | memLimitTooLowPreagg
  | memLimitTooLow
  | repartitionIneffective
deriving Repr, DecidableEq

/-- Errors surfaced by the hash-join node paths modelled here. -/
inductive JoinError
  | memLimitTooLow
  | repartitionIneffective
deriving Repr, DecidableEq

/-- An aggregation partition as seen by `SpillPartition`: the two skip flags
and the three summands of its memory footprint
(`aggregated_row_stream->bytes_in_mem(true)`, `hash_tbl->ByteSize()`,
`agg_fn_pool->total_reserved_bytes()`). -/
structure AggSpillPartition where
  isClosed : Bool
  isSpilled : Bool
  aggStreamBytesInMem : Nat
  htByteSize : Nat
  aggFnPoolBytes : Nat
deriving Repr, DecidableEq

/-- The memory freed by spilling an aggregation partition
(partitioned-aggregation-node.cc:1318-1320). -/
def aggPartitionMem (p : AggSpillPartition) : Nat :=
  p.aggStreamBytesInMem + p.htByteSize + p.aggFnPoolBytes

/-- The candidate scan of `PartitionedAggregationNode::SpillPartition`:
closed or already-spilled partitions are skipped. -/
def aggSpillCandidates (ps : List AggSpillPartition) : List (Option Nat) :=
  ps.map (fun p =>
    if p.isClosed then none
    else if p.isSpilled then none
    else some (aggPartitionMem p))

/-- `PartitionedAggregationNode::SpillPartition`
(partitioned-aggregation-node.cc:1309-1334): picks the largest resident
partition; `MemLimitTooLowError` when `partition_idx == -1`. -/
def aggSpillPartition (ps : List AggSpillPartition) : Except AggError Nat :=
  match spillPick (aggSpillCandidates ps) with
  | none => .error .memLimitTooLow
  | some i => .ok i

/-- A join partition as seen by `SpillPartition`: skip flags, the build
spool bytes in memory (`build_rows()->bytes_in_mem(false)`) and the hash
table when resident (`ByteSize()` and `HasMatches()`). -/
structure JoinSpillPartition where
  isClosed : Bool
  isSpilled : Bool
  buildBytesInMem : Nat
  hashTbl : Option (Nat × Bool)
deriving Repr, DecidableEq

/-- `HasMatches()` of the partition's hash table (false when no table). -/
def joinHasMatches (p : JoinSpillPartition) : Bool :=
  match p.hashTbl with
  | some (_, matched) => matched
  | none => false

/-- The memory freed by spilling a join partition
(partitioned-hash-join-node.cc:587-594). -/
def joinPartitionMem (p : JoinSpillPartition) : Nat :=
  p.buildBytesInMem +
    (match p.hashTbl with
     | some (bytes, _) => bytes
     | none => 0)

/-- The candidate scan of `PartitionedHashJoinNode::SpillPartition`: closed
or spilled partitions are skipped, and so is any partition whose hash table
already has matches (IMPALA-1488, partitioned-hash-join-node.cc:591-593). -/
def joinSpillCandidates (ps : List JoinSpillPartition) : List (Option Nat) :=
  ps.map (fun p =>
    if p.isClosed then none
    else if p.isSpilled then none
    else if joinHasMatches p then none
    else some (joinPartitionMem p))

/-- `PartitionedHashJoinNode::SpillPartition`
(partitioned-hash-join-node.cc:577-613). -/
def joinSpillPartition (ps : List JoinSpillPartition) : Except JoinError Nat :=
  match spillPick (joinSpillCandidates ps) with
  | none => .error .memLimitTooLow
  | some i => .ok i

theorem aggSpillCandidates_getElem (ps : List AggSpillPartition) (j : Nat) :
    (aggSpillCandidates ps)[j]? = (ps[j]?).map (fun p =>
      if p.isClosed then none
      else if p.isSpilled then none
      else some (aggPartitionMem p)) := by
  simp [aggSpillCandidates]

theorem joinSpillCandidates_getElem (ps : List JoinSpillPartition) (j : Nat) :
    (joinSpillCandidates ps)[j]? = (ps[j]?).map (fun p =>
      if p.isClosed then none
      else if p.isSpilled then none
      else if joinHasMatches p then none
      else some (joinPartitionMem p)) := by
  simp [joinSpillCandidates]

theorem aggCand_eq_some (aps : List AggSpillPartition) (j : Nat)
    (p : AggSpillPartition) (hj : aps[j]? = some p) (hcl : p.isClosed = false)
    (hsp : p.isSpilled = false) :
    (aggSpillCandidates aps)[j]? = some (some (aggPartitionMem p)) := by
  rw [aggSpillCandidates_getElem, hj]
  simp [hcl, hsp]

theorem aggCand_inv (aps : List AggSpillPartition) (j m : Nat)
    (h : (aggSpillCandidates aps)[j]? = some (some m)) :
    ∃ p, aps[j]? = some p ∧ p.isClosed = false ∧ p.isSpilled = false ∧
      aggPartitionMem p = m := by
  rw [aggSpillCandidates_getElem] at h
  rcases hp : aps[j]? with _ | p
  · rw [hp] at h; simp at h
  · rw [hp] at h
    cases hcl : p.isClosed with
    | true => simp [hcl] at h
    | false =>
        cases hsp : p.isSpilled with
        | true => simp [hcl, hsp] at h
        | false =>
            simp only [Option.map_some', hcl, hsp, Bool.false_eq_true,
              if_false, Option.some.injEq] at h
            exact ⟨p, rfl, hcl, hsp, h⟩

theorem joinCand_eq_some (jps : List JoinSpillPartition) (j : Nat)
    (p : JoinSpillPartition) (hj : jps[j]? = some p)
    (hcl : p.isClosed = false) (hsp : p.isSpilled = false)
    (hmt : joinHasMatches p = false) :
    (joinSpillCandidates jps)[j]? = some (some (joinPartitionMem p)) := by
  rw [joinSpillCandidates_getElem, hj]
  simp [hcl, hsp, hmt]

theorem joinCand_inv (jps : List JoinSpillPartition) (j m : Nat)
    (h : (joinSpillCandidates jps)[j]? = some (some m)) :
    ∃ p, jps[j]? = some p ∧ p.isClosed = false ∧ p.isSpilled = false ∧
      joinHasMatches p = false ∧ joinPartitionMem p = m := by
  rw [joinSpillCandidates_getElem] at h
  rcases hp : jps[j]? with _ | p
  · rw [hp] at h; simp at h
  · rw [hp] at h
    cases hcl : p.isClosed with
    | true => simp [hcl] at h
    | false =>
        cases hsp : p.isSpilled with
        | true => simp [hcl, hsp] at h
        | false =>
            cases hmt : joinHasMatches p with
            | true => simp [hcl, hsp, hmt] at h
            | false =>
                simp only [Option.map_some', hcl, hsp, hmt,
                  Bool.false_eq_true, if_false, Option.some.injEq] at h
                exact ⟨p, rfl, hcl, hsp, hmt, h⟩

/-- C3 (amended): the aggregator spills the largest open non-spilled
partition and reports `MemLimitTooLowError` exactly when no open non-spilled
partition has a positive footprint (a DCHECK there asserts that resident
partitions always have one); the join does the same but with partitions
whose hash table already has matches excluded from the candidates. -/
theorem spillPartition_picks_largest (aps : List AggSpillPartition)
    (jps : List JoinSpillPartition) :
    (aggSpillPartition aps = .error .memLimitTooLow ↔
      ∀ (j : Nat) (p : AggSpillPartition), aps[j]? = some p →
        p.isClosed = false → p.isSpilled = false → aggPartitionMem p = 0) ∧
    (∀ i, aggSpillPartition aps = .ok i →
      ∃ p, aps[i]? = some p ∧ p.isClosed = false ∧ p.isSpilled = false ∧
        0 < aggPartitionMem p ∧
        ∀ (j : Nat) (q : AggSpillPartition), aps[j]? = some q →
          q.isClosed = false → q.isSpilled = false →
          aggPartitionMem q ≤ aggPartitionMem p) ∧
    (joinSpillPartition jps = .error .memLimitTooLow ↔
      ∀ (j : Nat) (p : JoinSpillPartition), jps[j]? = some p →
        p.isClosed = false → p.isSpilled = false → joinHasMatches p = false →
        joinPartitionMem p = 0) ∧
    (∀ i, joinSpillPartition jps = .ok i →
      ∃ p, jps[i]? = some p ∧ p.isClosed = false ∧ p.isSpilled = false ∧
        joinHasMatches p = false ∧ 0 < joinPartitionMem p ∧
        ∀ (j : Nat) (q : JoinSpillPartition), jps[j]? = some q →
          q.isClosed = false → q.isSpilled = false →
          joinHasMatches q = false →
          joinPartitionMem q ≤ joinPartitionMem p) := by
  refine ⟨?_, ?_, ?_, ?_⟩
  · unfold aggSpillPartition
    rcases hpick : spillPick (aggSpillCandidates aps) with _ | i
    · simp only [true_iff]
      rw [spillPick_none_iff] at hpick
      intro j p hj hcl hsp
      exact hpick j (aggPartitionMem p) (aggCand_eq_some aps j p hj hcl hsp)
    · simp only [reduceCtorEq, false_iff]
      intro hall
      obtain ⟨m, hc, hm, _⟩ := spillPick_some_spec _ i hpick
      obtain ⟨p, hp, hcl, hsp, hmem⟩ := aggCand_inv aps i m hc
      have := hall i p hp hcl hsp
      omega
  · intro i hok
    unfold aggSpillPartition at hok
    rcases hpick : spillPick (aggSpillCandidates aps) with _ | i2
    · rw [hpick] at hok; simp at hok
    · rw [hpick] at hok
      have hii : i2 = i := by simpa using hok
      subst hii
      obtain ⟨m, hc, hm, hmax⟩ := spillPick_some_spec _ i2 hpick
      obtain ⟨p, hp, hcl, hsp, hmem⟩ := aggCand_inv aps i2 m hc
      refine ⟨p, hp, hcl, hsp, by omega, ?_⟩
      intro j q hj hqcl hqsp
      have := hmax j (aggPartitionMem q) (aggCand_eq_some aps j q hj hqcl hqsp)
      omega
  · unfold joinSpillPartition
    rcases hpick : spillPick (joinSpillCandidates jps) with _ | i
    · simp only [true_iff]
      rw [spillPick_none_iff] at hpick
      intro j p hj hcl hsp hmt
      exact hpick j (joinPartitionMem p)
        (joinCand_eq_some jps j p hj hcl hsp hmt)
    · simp only [reduceCtorEq, false_iff]
      intro hall
      obtain ⟨m, hc, hm, _⟩ := spillPick_some_spec _ i hpick
      obtain ⟨p, hp, hcl, hsp, hmt, hmem⟩ := joinCand_inv jps i m hc
      have := hall i p hp hcl hsp hmt
      omega
  · intro i hok
    unfold joinSpillPartition at hok
    rcases hpick : spillPick (joinSpillCandidates jps) with _ | i2
    · rw [hpick] at hok; simp at hok
    · rw [hpick] at hok
      have hii : i2 = i := by simpa using hok
      subst hii
      obtain ⟨m, hc, hm, hmax⟩ := spillPick_some_spec _ i2 hpick
      obtain ⟨p, hp, hcl, hsp, hmt, hmem⟩ := joinCand_inv jps i2 m hc
      refine ⟨p, hp, hcl, hsp, hmt, by omega, ?_⟩
      intro j q hj hqcl hqsp hqmt
      have := hmax j (joinPartitionMem q)
        (joinCand_eq_some jps j q hj hqcl hqsp hqmt)
      omega

/-- Witness for C3's amended theorem: among two resident aggregation
partitions the larger (index 1) is selected. -/
theorem spillPartition_picks_largest_witness :
    ∃ p, [⟨false, false, 10, 20, 0⟩,
          (⟨false, false, 100, 50, 5⟩ : AggSpillPartition)][1]? = some p ∧
      p.isClosed = false ∧ p.isSpilled = false ∧
      0 < aggPartitionMem p ∧
      ∀ (j : Nat) (q : AggSpillPartition),
        [⟨false, false, 10, 20, 0⟩,
         (⟨false, false, 100, 50, 5⟩ : AggSpillPartition)][j]? = some q →
        q.isClosed = false → q.isSpilled = false →
        aggPartitionMem q ≤ aggPartitionMem p :=
  (spillPartition_picks_largest
    [⟨false, false, 10, 20, 0⟩, ⟨false, false, 100, 50, 5⟩] []).2.1 1 rfl

/-- C3 counterexample: in the join, a resident partition whose hash table
has matches (index 0, footprint 200) is passed over and the smaller
matchless partition (index 1, footprint 10) is spilled instead, so
`SpillPartition` does not select the largest open non-spilled partition. -/
theorem joinSpillPartition_skips_largest_matched :
    joinSpillPartition [⟨false, false, 100, some (100, true)⟩,
        ⟨false, false, 10, none⟩] = .ok 1 ∧
    (⟨false, false, 100, some (100, true)⟩ : JoinSpillPartition).isClosed
        = false ∧
    (⟨false, false, 100, some (100, true)⟩ : JoinSpillPartition).isSpilled
        = false ∧
    joinPartitionMem ⟨false, false, 100, some (100, true)⟩ >
      joinPartitionMem ⟨false, false, 10, none⟩ := by
  refine ⟨?_, rfl, rfl, by decide⟩
  rfl

/-- C10: the join's `SpillPartition` never selects a partition whose hash
table has matches: whatever the memory sizes, a selected index always
points at a partition with `HasMatches() = false`, so matched build rows
are never lost to spilling. -/
theorem joinSpillPartition_never_picks_matched
    (ps : List JoinSpillPartition) (i : Nat)
    (hok : joinSpillPartition ps = .ok i) :
    ∃ p, ps[i]? = some p ∧ joinHasMatches p = false ∧
      p.isClosed = false ∧ p.isSpilled = false := by
  unfold joinSpillPartition at hok
  rcases hpick : spillPick (joinSpillCandidates ps) with _ | i2
  · rw [hpick] at hok; simp at hok
  · rw [hpick] at hok
    have hii : i2 = i := by simpa using hok
    subst hii
    obtain ⟨m, hc, _, _⟩ := spillPick_some_spec _ i2 hpick
    obtain ⟨p, hp, hcl, hsp, hmt, _⟩ := joinCand_inv ps i2 m hc
    exact ⟨p, hp, hmt, hcl, hsp⟩

/-- Witness for C10: even when the matched partition is the largest, the
selected partition has no matches. -/
theorem joinSpillPartition_never_picks_matched_witness :
    ∃ p, [⟨false, false, 100, some (100, true)⟩,
          (⟨false, false, 10, none⟩ : JoinSpillPartition)][1]? = some p ∧
      joinHasMatches p = false ∧ p.isClosed = false ∧ p.isSpilled = false :=
  joinSpillPartition_never_picks_matched
    [⟨false, false, 100, some (100, true)⟩, ⟨false, false, 10, none⟩] 1 rfl

/-! ### Partition creation
(`PartitionedAggregationNode::CreateHashPartitions`,
partitioned-aggregation-node.cc:1128-1172, and
`Partition::InitStreams`, partitioned-aggregation-node.cc:718-755) -/

/-- The spool streams a fresh aggregation partition owns after
`InitStreams`: the aggregated stream always; the unaggregated (spill)
stream only when the node is not a streaming preaggregation
(partitioned-aggregation-node.cc:744-753). -/
structure AggPartitionStreams where
  hasAggregatedStream : Bool
  hasUnaggregatedStream : Bool
deriving Repr, DecidableEq

/-- `Partition::InitStreams`. -/
def initStreams (isStreamingPreagg : Bool) : AggPartitionStreams :=
  { hasAggregatedStream := true, hasUnaggregatedStream := !isStreamingPreagg }

/-- A partition as produced by `CreateHashPartitions`. -/
structure AggHashPartition where
  level : Nat
  streams : AggPartitionStreams
  hasHashTable : Bool
  spilled : Bool
deriving Repr, DecidableEq

/-- The hash-table allocation loop of `CreateHashPartitions`
(partitioned-aggregation-node.cc:1150-1165): when `InitHashTable` fails, a
streaming preaggregation returns a memory-limit error ("We do not spill on
preaggregations"); otherwise that partition is spilled immediately.
`htInitOk i` models `hash_partitions_[i]->InitHashTable()` succeeding. -/
def createPartitionsLoop (isStreamingPreagg : Bool) (htInitOk : Nat → Bool)
    (level : Nat) : List Nat → Except AggError (List AggHashPartition)
  | [] => .ok []
  | i :: rest =>
    if htInitOk i then
      (createPartitionsLoop isStreamingPreagg htInitOk level rest).map
        (fun ps => ⟨level, initStreams isStreamingPreagg, true, false⟩ :: ps)
    else if isStreamingPreagg then .error .memLimitTooLowPreagg
    else
      (createPartitionsLoop isStreamingPreagg htInitOk level rest).map
        (fun ps => ⟨level, initStreams isStreamingPreagg, false, true⟩ :: ps)

/-- `PartitionedAggregationNode::CreateHashPartitions`: checks the maximum
recursion depth, creates `PARTITION_FANOUT` partitions with their streams,
then allocates their hash tables. -/
def createHashPartitions (isStreamingPreagg : Bool) (htInitOk : Nat → Bool)
    (level : Nat) : Except AggError (List AggHashPartition) :=
  if MAX_PARTITION_DEPTH ≤ level then .error .maxPartitionDepth
  else createPartitionsLoop isStreamingPreagg htInitOk level
    (List.range PARTITION_FANOUT)

theorem createPartitionsLoop_ok_streaming (htInitOk : Nat → Bool)
    (level : Nat) :
    ∀ (l : List Nat) (ps : List AggHashPartition),
      createPartitionsLoop true htInitOk level l = .ok ps →
      ∀ p ∈ ps, p.spilled = false ∧
        p.streams.hasUnaggregatedStream = false ∧ p.hasHashTable = true := by
  intro l
  induction l with
  | nil =>
      intro ps hps p hp
      simp only [createPartitionsLoop, Except.ok.injEq] at hps
      subst hps
      simp at hp
  | cons i rest ih =>
      intro ps hps p hp
      by_cases hok : htInitOk i = true
      · simp only [createPartitionsLoop, if_pos hok] at hps
        rcases hrec : createPartitionsLoop true htInitOk level rest with e | ps2
        · rw [hrec] at hps; simp [Except.map] at hps
        · rw [hrec] at hps
          simp only [Except.map, Except.ok.injEq] at hps
          subst hps
          rcases List.mem_cons.mp hp with hp | hp
          · subst hp
            exact ⟨rfl, rfl, rfl⟩
          · exact ih ps2 hrec p hp
      · simp only [createPartitionsLoop, if_neg hok, if_pos rfl] at hps
        exact absurd hps (by simp)

theorem createPartitionsLoop_err_streaming (htInitOk : Nat → Bool)
    (level : Nat) :
    ∀ (l : List Nat), (∃ i ∈ l, htInitOk i = false) →
      createPartitionsLoop true htInitOk level l =
        .error .memLimitTooLowPreagg := by
  intro l
  induction l with
  | nil => intro h; simp at h
  | cons i rest ih =>
      intro h
      by_cases hok : htInitOk i = true
      · have hrest : ∃ i2 ∈ rest, htInitOk i2 = false := by
          rcases h with ⟨i2, hi2, hfail⟩
          rcases List.mem_cons.mp hi2 with hi2 | hi2
          · subst hi2; rw [hok] at hfail; exact absurd hfail (by simp)
          · exact ⟨i2, hi2, hfail⟩
        simp only [createPartitionsLoop, if_pos hok, ih hrest]
        rfl
      · simp only [createPartitionsLoop, if_neg hok, if_pos trivial]

/-- C2: a streaming preaggregation never spills: its partitions are created
without an unaggregated (spill) spool, a successful `CreateHashPartitions`
yields only resident, non-spilled partitions, and when any hash table
cannot be allocated the operator fails with a memory-limit error instead of
spilling a partition. -/
theorem streaming_preagg_never_spills (htInitOk : Nat → Bool) (level : Nat)
    (ps : List AggHashPartition) :
    (initStreams true).hasUnaggregatedStream = false ∧
    (createHashPartitions true htInitOk level = .ok ps →
      ∀ p ∈ ps, p.spilled = false ∧
        p.streams.hasUnaggregatedStream = false ∧ p.hasHashTable = true) ∧
    (level < MAX_PARTITION_DEPTH →
      (∃ i, i < PARTITION_FANOUT ∧ htInitOk i = false) →
      createHashPartitions true htInitOk level =
        .error .memLimitTooLowPreagg) := by
  refine ⟨rfl, ?_, ?_⟩
  · intro hok p hp
    unfold createHashPartitions at hok
    by_cases hlev : MAX_PARTITION_DEPTH ≤ level
    · rw [if_pos hlev] at hok
      exact absurd hok (by simp)
    · rw [if_neg hlev] at hok
      exact createPartitionsLoop_ok_streaming htInitOk level _ ps hok p hp
  · intro hlev ⟨i, hi, hfail⟩
    unfold createHashPartitions
    rw [if_neg (by omega)]
    exact createPartitionsLoop_err_streaming htInitOk level _
      ⟨i, by simpa [PARTITION_FANOUT] using hi, hfail⟩

/-- Witness for C2 at a concrete failing allocation: table 7 cannot be
allocated at level 0, and the streaming preaggregation fails with the
memory-limit error. -/
theorem streaming_preagg_never_spills_witness :
    createHashPartitions true (fun i => decide (i ≠ 7)) 0 =
      .error .memLimitTooLowPreagg :=
  (streaming_preagg_never_spills (fun i => decide (i ≠ 7)) 0 []).2.2
    (by decide) ⟨7, by decide, by decide⟩


/-! ### Streaming preaggregation expansion decision
(`PartitionedAggregationNode::ShouldExpandPreaggHashTables`,
partitioned-aggregation-node.cc:583-629, and `STREAMING_HT_MIN_REDUCTION`,
partitioned-aggregation-node.cc:88-95)

Doubles are modelled as exact rationals; the `int64_t` quantities as `Int`.
Note that `expected_input_rows / aggregated_input_rows` in the source is an
`int64_t` division (both operands are `int64_t`), modelled by `Int.tdiv`. -/

/-- `STREAMING_HT_MIN_REDUCTION`: above each total hash-table byte size,
the minimum reduction factor required to keep expanding. -/
def STREAMING_HT_MIN_REDUCTION : List (Nat × ℚ) :=
  [(0, 0), (256 * 1024, 11 / 10), (2 * 1024 * 1024, 2)]

/-- The `cache_level` scan (partitioned-aggregation-node.cc:596-600): climb
while the next entry's `min_ht_mem` threshold is reached.  The thresholds
are strictly increasing, so running the loop body a fixed
`STREAMING_HT_MIN_REDUCTION_SIZE - 1` times computes the same level as the
`while` loop. -/
def cacheLevel (htMem : Nat) : Nat :=
  (List.range (STREAMING_HT_MIN_REDUCTION.length - 1)).foldl
    (fun lvl _ =>
      if lvl + 1 < STREAMING_HT_MIN_REDUCTION.length ∧
          (STREAMING_HT_MIN_REDUCTION.getD (lvl + 1) (0, 0)).1 ≤ htMem
      then lvl + 1 else lvl) 0

/-- `STREAMING_HT_MIN_REDUCTION[cache_level].streaming_ht_min_reduction`. -/
def minReductionAt (htMem : Nat) : ℚ :=
  (STREAMING_HT_MIN_REDUCTION.getD (cacheLevel htMem) (0, 0)).2

/-- `ShouldExpandPreaggHashTables` (partitioned-aggregation-node.cc:583-629):
`htMem`/`htRows` are the summed `CurrentMemSize()`/`size()` of the fanout
hash tables; `inputRows` is `children_[0]->rows_returned()`; `rowsReturned`
is `num_rows_returned_` (rows passed through so far); `estimatedCard` is the
planner estimate. -/
def shouldExpandPreaggHashTables (htMem htRows : Nat)
    (inputRows rowsReturned estimatedCard : Int) : Bool :=
  if htRows = 0 then true
  else
    let aggregatedInputRows : Int := inputRows - rowsReturned
    let expectedInputRows : Int := estimatedCard - rowsReturned
    if aggregatedInputRows ≤ 0 then true
    else
      let currentReduction : ℚ := (aggregatedInputRows : ℚ) / (htRows : ℚ)
      let estimatedReduction : ℚ :=
        if expectedInputRows ≤ aggregatedInputRows then currentReduction
        else 1 + ((Int.tdiv expectedInputRows aggregatedInputRows : Int) : ℚ)
          * (currentReduction - 1)
      decide (minReductionAt htMem < estimatedReduction)

/-- The expansion decision as C7 states it: always the extrapolation
`R_est = 1 + (N_expected / n_aggregated) * (r_current - 1)` with exact
rational division, compared against the same threshold table. -/
def claimShouldExpand (htMem htRows : Nat)
    (inputRows rowsReturned estimatedCard : Int) : Bool :=
  let aggregated : ℚ := ((inputRows - rowsReturned : Int) : ℚ)
  let expected : ℚ := ((estimatedCard - rowsReturned : Int) : ℚ)
  let r : ℚ := aggregated / (htRows : ℚ)
  decide (minReductionAt htMem < 1 + (expected / aggregated) * (r - 1))

theorem minReductionAt_cases (htMem : Nat) :
    (htMem < 262144 → minReductionAt htMem = 0) ∧
    (262144 ≤ htMem → htMem < 2097152 → minReductionAt htMem = 11 / 10) ∧
    (2097152 ≤ htMem → minReductionAt htMem = 2) := by
  refine ⟨?_, ?_, ?_⟩
  · intro h1
    have hn : ¬ 262144 ≤ htMem := by omega
    have hs : cacheLevel htMem = 0 := by
      unfold cacheLevel STREAMING_HT_MIN_REDUCTION
      norm_num [List.range_succ, hn]
    simp [minReductionAt, hs, STREAMING_HT_MIN_REDUCTION]
  · intro h1 h2
    have hn : ¬ 2097152 ≤ htMem := by omega
    have hs : cacheLevel htMem = 1 := by
      unfold cacheLevel STREAMING_HT_MIN_REDUCTION
      norm_num [List.range_succ, h1, hn]
    simp [minReductionAt, hs, STREAMING_HT_MIN_REDUCTION]
  · intro h1
    have hb : 262144 ≤ htMem := by omega
    have hs : cacheLevel htMem = 2 := by
      unfold cacheLevel STREAMING_HT_MIN_REDUCTION
      norm_num [List.range_succ, hb, h1]
    simp [minReductionAt, hs, STREAMING_HT_MIN_REDUCTION]

/-- C7 (amended): the streaming preaggregation expands only when the
estimated reduction exceeds the threshold looked up by hash-table byte size
(0 below 256 KiB, 1.1 from 256 KiB, 2.0 from 2 MiB) — but the estimate is
the claimed formula only when `N_expected > n_aggregated`, and there the
quotient `N_expected / n_aggregated` is an integer (truncating) division;
when `n_aggregated >= N_expected` the current reduction is used directly,
and when the tables are empty or nothing was aggregated the node always
allows expansion. -/
theorem preagg_expand_decision (htMem htRows : Nat)
    (inputRows rowsReturned estimatedCard : Int) :
    (shouldExpandPreaggHashTables htMem htRows inputRows rowsReturned
        estimatedCard = true ↔
      (htRows = 0 ∨ inputRows - rowsReturned ≤ 0 ∨
        minReductionAt htMem <
          (if estimatedCard - rowsReturned ≤ inputRows - rowsReturned
           then ((inputRows - rowsReturned : Int) : ℚ) / (htRows : ℚ)
           else 1 + ((Int.tdiv (estimatedCard - rowsReturned)
               (inputRows - rowsReturned) : Int) : ℚ) *
             (((inputRows - rowsReturned : Int) : ℚ) / (htRows : ℚ) - 1)))) ∧
    (htMem < 262144 → minReductionAt htMem = 0) ∧
    (262144 ≤ htMem → htMem < 2097152 → minReductionAt htMem = 11 / 10) ∧
    (2097152 ≤ htMem → minReductionAt htMem = 2) := by
  refine ⟨?_, minReductionAt_cases htMem⟩
  unfold shouldExpandPreaggHashTables
  by_cases h0 : htRows = 0
  · simp [h0]
  · rw [if_neg h0]
    by_cases hagg : inputRows - rowsReturned ≤ 0
    · simp [hagg, h0]
    · rw [if_neg hagg]
      simp only [decide_eq_true_eq]
      constructor
      · intro h
        exact Or.inr (Or.inr h)
      · intro h
        rcases h with h | h | h
        · exact absurd h h0
        · exact absurd h hagg
        · exact h

/-- Witness for C7's amended theorem: at 300 KiB of hash tables the
threshold in force is 1.1. -/
theorem preagg_expand_decision_witness :
    minReductionAt 300000 = 11 / 10 :=
  (preagg_expand_decision 300000 5 10 0 20).2.2.1 (by decide) (by decide)

/-- C7 counterexample: with 2 MiB of hash tables (threshold 2.0), 10 rows in
the tables, 17 input rows aggregated, none passed through, and an estimated
cardinality of 26, the code computes
`1 + (26 tdiv 17) * (17/10 - 1) = 17/10` and does not expand, while the
claimed formula gives `1 + (26/17) * (17/10 - 1) = 176/85 > 2` and would
expand. -/
theorem preagg_expand_diverges_from_claim :
    shouldExpandPreaggHashTables 2097152 10 17 0 26 = false ∧
    claimShouldExpand 2097152 10 17 0 26 = true := by
  have hmin : minReductionAt 2097152 = 2 :=
    (minReductionAt_cases 2097152).2.2 (by omega)
  constructor
  · unfold shouldExpandPreaggHashTables
    norm_num [hmin, Int.tdiv]
  · unfold claimShouldExpand
    norm_num [hmin]


/-! ### Repartitioning effectiveness
(`PartitionedAggregationNode::NextPartition`,
partitioned-aggregation-node.cc:1250-1267, with `LargestSpilledPartition`
at 1190-1200, and `PartitionedHashJoinNode::PrepareNextPartition`,
partitioned-hash-join-node.cc:849-865, with its `LargestSpilledPartition`) -/

/-- A child partition produced by repartitioning in the aggregator: its
`aggregated_row_stream` and `unaggregated_row_stream` row counts. -/
structure AggChildPartition where
  isClosed : Bool
  isSpilled : Bool
  aggregatedRows : Nat
  unaggregatedRows : Nat
deriving Repr, DecidableEq

/-- `PartitionedAggregationNode::LargestSpilledPartition`: the maximum
`aggregated + unaggregated` row count over open spilled partitions. -/
def aggLargestSpilledPartition (ps : List AggChildPartition) : Nat :=
  ps.foldl (fun maxRows p =>
    if p.isClosed then maxRows
    else if !p.isSpilled then maxRows
    else if maxRows < p.aggregatedRows + p.unaggregatedRows
    then p.aggregatedRows + p.unaggregatedRows
    else maxRows) 0

/-- The post-repartitioning check in `NextPartition`
(partitioned-aggregation-node.cc:1254-1266): when the repartitioned input's
row count equals the largest resulting spilled child, fail with the
memory-limit error "Repartitioning did not reduce the size of a spilled
partition"; otherwise processing continues. -/
def aggRepartitionCheck (numInputRows : Nat)
    (children : List AggChildPartition) : Except AggError Unit :=
  if numInputRows = aggLargestSpilledPartition children
  then .error .repartitionIneffective
  else .ok ()

/-- A child partition produced by repartitioning in the join: its build-side
row count. -/
structure JoinChildPartition where
  isClosed : Bool
  isSpilled : Bool
  buildRows : Nat
deriving Repr, DecidableEq

/-- `PartitionedHashJoinNode::LargestSpilledPartition`: the maximum build
row count over open spilled partitions. -/
def joinLargestSpilledPartition (ps : List JoinChildPartition) : Nat :=
  ps.foldl (fun maxRows p =>
    if p.isClosed then maxRows
    else if !p.isSpilled then maxRows
    else if maxRows < p.buildRows then p.buildRows
    else maxRows) 0

/-- The post-repartitioning check in `PrepareNextPartition`
(partitioned-hash-join-node.cc:853-865). -/
def joinRepartitionCheck (numInputRows : Nat)
    (children : List JoinChildPartition) : Except JoinError Unit :=
  if numInputRows = joinLargestSpilledPartition children
  then .error .repartitionIneffective
  else .ok ()

theorem aggLargestSpilled_foldl_bound (ps : List AggChildPartition) :
    ∀ acc : Nat,
      acc ≤ ps.foldl (fun maxRows p =>
        if p.isClosed then maxRows
        else if !p.isSpilled then maxRows
        else if maxRows < p.aggregatedRows + p.unaggregatedRows
        then p.aggregatedRows + p.unaggregatedRows
        else maxRows) acc ∧
      ∀ p ∈ ps, p.isClosed = false → p.isSpilled = true →
        p.aggregatedRows + p.unaggregatedRows ≤
          ps.foldl (fun maxRows p =>
            if p.isClosed then maxRows
            else if !p.isSpilled then maxRows
            else if maxRows < p.aggregatedRows + p.unaggregatedRows
            then p.aggregatedRows + p.unaggregatedRows
            else maxRows) acc := by
  induction ps with
  | nil => intro acc; exact ⟨Nat.le_refl acc, by intro p hp; simp at hp⟩
  | cons q rest ih =>
      intro acc
      simp only [List.foldl_cons]
      constructor
      · refine Nat.le_trans ?_ (ih _).1
        by_cases hcl : q.isClosed = true
        · simp [hcl]
        · by_cases hsp : q.isSpilled = true
          · by_cases hgt : acc < q.aggregatedRows + q.unaggregatedRows
            · simp [hcl, hsp, hgt]
              omega
            · simp [hcl, hsp, hgt]
          · simp [hcl, (Bool.not_eq_true _ ▸ hsp)]
      · intro p hp hpcl hpsp
        rcases List.mem_cons.mp hp with hp | hp
        · subst hp
          refine Nat.le_trans ?_ (ih _).1
          simp only [hpcl, Bool.false_eq_true, if_false, hpsp, Bool.not_true]
          by_cases hgt : acc < p.aggregatedRows + p.unaggregatedRows
          · simp [hgt]
          · simp [hgt]
            omega
        · exact (ih _).2 p hp hpcl hpsp

theorem joinLargestSpilled_foldl_bound (ps : List JoinChildPartition) :
    ∀ acc : Nat,
      acc ≤ ps.foldl (fun maxRows p =>
        if p.isClosed then maxRows
        else if !p.isSpilled then maxRows
        else if maxRows < p.buildRows then p.buildRows
        else maxRows) acc ∧
      ∀ p ∈ ps, p.isClosed = false → p.isSpilled = true →
        p.buildRows ≤
          ps.foldl (fun maxRows p =>
            if p.isClosed then maxRows
            else if !p.isSpilled then maxRows
            else if maxRows < p.buildRows then p.buildRows
            else maxRows) acc := by
  induction ps with
  | nil => intro acc; exact ⟨Nat.le_refl acc, by intro p hp; simp at hp⟩
  | cons q rest ih =>
      intro acc
      simp only [List.foldl_cons]
      constructor
      · refine Nat.le_trans ?_ (ih _).1
        by_cases hcl : q.isClosed = true
        · simp [hcl]
        · by_cases hsp : q.isSpilled = true
          · by_cases hgt : acc < q.buildRows
            · simp [hcl, hsp, hgt]
              omega
            · simp [hcl, hsp, hgt]
          · simp [hcl, (Bool.not_eq_true _ ▸ hsp)]
      · intro p hp hpcl hpsp
        rcases List.mem_cons.mp hp with hp | hp
        · subst hp
          refine Nat.le_trans ?_ (ih _).1
          simp only [hpcl, Bool.false_eq_true, if_false, hpsp, Bool.not_true]
          by_cases hgt : acc < p.buildRows
          · simp [hgt]
          · simp [hgt]
            omega
        · exact (ih _).2 p hp hpcl hpsp

/-- C8: after repartitioning a spilled partition at `level + 1`, both
operators fail with the terminal memory-limit error "Repartitioning did not
reduce the size of a spilled partition" exactly when the largest resulting
spilled child holds as many rows as the repartitioned input; otherwise
processing continues.  The "largest" value bounds every open spilled
child's row count. -/
theorem repartition_ineffective_check (aggInputRows joinInputRows : Nat)
    (aggChildren : List AggChildPartition)
    (joinChildren : List JoinChildPartition) :
    (aggRepartitionCheck aggInputRows aggChildren =
        .error .repartitionIneffective ↔
      aggLargestSpilledPartition aggChildren = aggInputRows) ∧
    (aggRepartitionCheck aggInputRows aggChildren = .ok () ↔
      aggLargestSpilledPartition aggChildren ≠ aggInputRows) ∧
    (∀ p ∈ aggChildren, p.isClosed = false → p.isSpilled = true →
      p.aggregatedRows + p.unaggregatedRows ≤
        aggLargestSpilledPartition aggChildren) ∧
    (joinRepartitionCheck joinInputRows joinChildren =
        .error .repartitionIneffective ↔
      joinLargestSpilledPartition joinChildren = joinInputRows) ∧
    (joinRepartitionCheck joinInputRows joinChildren = .ok () ↔
      joinLargestSpilledPartition joinChildren ≠ joinInputRows) ∧
    (∀ p ∈ joinChildren, p.isClosed = false → p.isSpilled = true →
      p.buildRows ≤ joinLargestSpilledPartition joinChildren) := by
  refine ⟨?_, ?_, ?_, ?_, ?_, ?_⟩
  · unfold aggRepartitionCheck
    by_cases h : aggInputRows = aggLargestSpilledPartition aggChildren
    · simp [h]
    · simp [h]
      omega
  · unfold aggRepartitionCheck
    by_cases h : aggInputRows = aggLargestSpilledPartition aggChildren
    · simp [h]
    · simp [h]
      omega
  · exact (aggLargestSpilled_foldl_bound aggChildren 0).2
  · unfold joinRepartitionCheck
    by_cases h : joinInputRows = joinLargestSpilledPartition joinChildren
    · simp [h]
    · simp [h]
      omega
  · unfold joinRepartitionCheck
    by_cases h : joinInputRows = joinLargestSpilledPartition joinChildren
    · simp [h]
    · simp [h]
      omega
  · exact (joinLargestSpilled_foldl_bound joinChildren 0).2

/-- Witness for C8 at concrete inputs: 100 repartitioned rows against a
largest spilled child of 100 rows trigger the error, and the largest-child
bound holds for the concrete children. -/
theorem repartition_ineffective_check_witness :
    (aggRepartitionCheck 100 [⟨false, true, 60, 40⟩, ⟨false, true, 0, 30⟩] =
        .error .repartitionIneffective ↔
      aggLargestSpilledPartition
        [⟨false, true, 60, 40⟩, ⟨false, true, 0, 30⟩] = 100) ∧
    (joinRepartitionCheck 100 [⟨false, true, 70⟩, ⟨false, false, 100⟩] =
        .ok () ↔
      joinLargestSpilledPartition
        [⟨false, true, 70⟩, ⟨false, false, 100⟩] ≠ 100) :=
  ⟨(repartition_ineffective_check 100 100
      [⟨false, true, 60, 40⟩, ⟨false, true, 0, 30⟩]
      [⟨false, true, 70⟩, ⟨false, false, 100⟩]).1,
   (repartition_ineffective_check 100 100
      [⟨false, true, 60, 40⟩, ⟨false, true, 0, 30⟩]
      [⟨false, true, 70⟩, ⟨false, false, 100⟩]).2.2.2.2.1⟩


end Impala
